import Mathlib

/-!
Verification of the `ringbuffer` kernel-log engine.

This file shallowly embeds the pure core of the repository in Lean 4:

* `src/core/parser.py` — `KernelLogParser` (line parsing, severity
  normalization/inference, continuation detection, CPU extraction);
* `src/core/sources.py` — the pure part of the two snapshot adapters
  (everything from the external tool's captured stdout onwards);
* `src/core/engine.py` — the buffer transition of the consumption loop
  (`_run_stream`), with the `collections.deque(maxlen=…)` semantics made
  explicit;
* `src/plugins/manager.py` — `load_plugin`, `process_event` and
  `_check_version_compatibility`.

Modelling conventions:

* Python `str` is modelled as Lean `String` / `List Char`.  The parser is
  only ever handed single lines (adapters split on `'\n'` or strip each
  line), so regex `.`/`$` semantics coincide with "rest of the string";
  theorems that quantify over arbitrary strings carry a no-newline
  hypothesis where this matters.
* Python regexes are compiled to deterministic scanners.  Each regex used
  by the source has disjoint character classes at every choice point, so
  greedy maximal-munch plus the one genuine backtracking spot
  (`KERNEL_PREFIX`'s optional subsystem group) is an exact translation.
* `\d`, `\s`, `str.strip()`, `str.lower()`/`upper()` are modelled over
  ASCII; the claims never involve non-ASCII digits or whitespace.
* Python floats are modelled as exact rationals (`ℚ`).  Every claim
  compares a parsed decimal with itself, so IEEE-754 rounding is
  irrelevant to the statements proved here.
* `timestamp_realtime` (wall-clock), `event_id` (uuid) and
  `plugin_metadata` are untouched by all code under verification and are
  omitted from the event model.
-/

namespace RingBuffer

/-- Python whitespace (`str.strip()` default set / regex `\s`, ASCII part). -/
def pyWs (c : Char) : Bool :=
  c = ' ' ∨ c = '\t' ∨ c = '\n' ∨ c = '\r' ∨ c = '\x0b' ∨ c = '\x0c'

/-- Drop trailing characters satisfying `p` (helper for `str.strip`/`rstrip`). -/
def dropTrailing (p : Char → Bool) (l : List Char) : List Char :=
  (l.reverse.dropWhile p).reverse

/-- Python `str.strip()` on the character list. -/
def stripList (l : List Char) : List Char :=
  dropTrailing pyWs (l.dropWhile pyWs)

/-- Python `str.strip()`. -/
def pyStrip (s : String) : String :=
  String.mk (stripList s.data)

/-- Python `line.rstrip('\n')`: drop only trailing newline characters. -/
def rstripNl (l : List Char) : List Char :=
  dropTrailing (fun c => c = '\n') l

/-- Numeric value of a decimal digit string (`''` ↦ 0, as in the uses below). -/
def natOfDigits (l : List Char) : Nat :=
  l.foldl (fun n c => 10 * n + (c.toNat - '0'.toNat)) 0

/-- Character class `[\d.]` of `DMESG_PATTERN`'s timestamp group. -/
def tsChar (c : Char) : Bool :=
  c.isDigit ∨ c = '.'

/-- Exact value of a digits-and-dots decimal literal (integer part `.` fraction). -/
def decimalToRat (l : List Char) : ℚ :=
  let ip := l.takeWhile (fun c => c ≠ '.')
  let fp := (l.drop ip.length).drop 1
  (natOfDigits ip : ℚ) + (natOfDigits fp : ℚ) / ((10 : ℚ) ^ fp.length)

/-- Python `float(s)` restricted to the strings `[\d.]+` can produce:
valid iff it has at least one digit and at most one dot (otherwise
`float` raises `ValueError`, which `_parse_timestamp` turns into `None`). -/
def pyFloatDigitsDots (l : List Char) : Option ℚ :=
  if (l.all tsChar ∧ l.count '.' ≤ 1 ∧ l.any Char.isDigit : Bool) then
    some (decimalToRat l)
  else
    none

/-- `KernelLogParser._parse_timestamp`: strip, then `float`, `None` on failure. -/
def parse_timestamp (l : List Char) : Option ℚ :=
  if l = [] then none else pyFloatDigitsDots (stripList l)

/-- Python `s.split(sep)` for a one-character separator (keeps empty
pieces; `''` ↦ `['']`). -/
def splitOnChar (sep : Char) (l : List Char) : List (List Char) :=
  match l with
  | [] => [[]]
  | c :: rest =>
    match splitOnChar sep rest with
    | [] => [[c]]
    | h :: t => if c = sep then [] :: h :: t else (c :: h) :: t

/-- Python `s.split('\n')`. -/
def splitNl (l : List Char) : List (List Char) :=
  splitOnChar '\n' l

/-- Python `int(s)` on a version component: optional surrounding whitespace,
optional sign, then a nonempty run of decimal digits.  (Non-ASCII digits and
underscore digit separators, which CPython also accepts, are not modelled;
no claim depends on them.) -/
def pyInt (s : String) : Option Int :=
  match stripList s.data with
  | '+' :: ds => if ds ≠ [] ∧ ds.all Char.isDigit then some (natOfDigits ds) else none
  | '-' :: ds => if ds ≠ [] ∧ ds.all Char.isDigit then some (-(natOfDigits ds : Int)) else none
  | ds => if ds ≠ [] ∧ ds.all Char.isDigit then some (natOfDigits ds) else none

/-- Python `lst[-B:]`: the `B` most recent elements — except that `B = 0`
means `lst[0:]`, i.e. the whole list. -/
def pyLastSlice {α : Type} (b : Nat) (l : List α) : List α :=
  if b = 0 then l else l.drop (l.length - b)

/-- The normalized kernel event (`src/core/event.py`, `KernelEvent`).
`timestamp_realtime`, `event_id` and `plugin_metadata` are omitted (see
header); annotation values are the booleans this codebase stores. -/
structure KernelEvent where
  timestampMonotonic : Option ℚ
  severity : String
  subsystem : String
  message : String
  raw : String
  source : String
  pid : Option Nat
  cpu : Option Nat
  annotations : List (String × Bool)
  deriving Repr, DecidableEq

/-- `KernelLogParser.SEVERITY_LEVELS` as a level-indexed table
(the dict maps exactly 0–7 to these names, in this order). -/
def severity_names : List String :=
  ["EMERG", "ALERT", "CRIT", "ERR", "WARN", "NOTICE", "INFO", "DEBUG"]

/-- `SEVERITY_LEVELS.get(level)`: `some name` for 0–7, `none` otherwise. -/
def SEVERITY_LEVELS (level : Nat) : Option String :=
  severity_names.get? level

/-- `KernelLogParser._normalize_severity`. -/
def normalize_severity (s : String) : String :=
  if s = "" then "INFO"
  else
    let n := String.mk (stripList (s.data.map Char.toUpper))
    if n ∈ severity_names then n
    else
      (([("ERROR", "ERR"), ("WARNING", "WARN"), ("NOTE", "NOTICE"),
         ("INFORMATION", "INFO"), ("CRITICAL", "CRIT"),
         ("EMERGENCY", "EMERG")] : List (String × String)).lookup n).getD n

/-- Keyword lists of `KernelLogParser._infer_severity`, in ladder order. -/
def emergKws : List String := ["panic", "oops", "fatal", "emergency", "crash", "bug:"]

def alertKws : List String := ["alert", "failure", "critical", "corruption"]

def errKws : List String :=
  ["error", "err", "failed", "segfault", "fault", "invalid", "unable", "cannot", "timeout"]

def warnKws : List String := ["warning", "warn", "deprecated", "attention"]

def noticeKws : List String := ["notice", "note", "fyi"]

def debugKws : List String := ["debug", "trace", "verbose", "dump"]

/-- Python substring test `needle in hay` (needle nonempty in every use). -/
def infixScan (needle : List Char) : List Char → Bool
  | [] => needle.isPrefixOf []
  | c :: t => needle.isPrefixOf (c :: t) ∨ infixScan needle t

/-- `any(keyword in message_lower for keyword in kws)`. -/
def kwAny (ml : List Char) (kws : List String) : Bool :=
  kws.any (fun k => infixScan k.data ml)

/-- `KernelLogParser._infer_severity` (the empty message falls through every
keyword check to the same `'INFO'` default as the early return). -/
def infer_severity (message : List Char) : String :=
  let ml := message.map Char.toLower
  if kwAny ml emergKws then "EMERG"
  else if kwAny ml alertKws then "ALERT"
  else if kwAny ml errKws then "ERR"
  else if kwAny ml warnKws then "WARN"
  else if kwAny ml noticeKws then "NOTICE"
  else if kwAny ml debugKws then "DEBUG"
  else "INFO"

/-- `KernelLogParser.CONTINUATION_MARKERS`. -/
def contMarkers : List String :=
  ["Code:", "Backtrace", "Call Trace", "Call trace", "EIP", "RIP", "RSP", "\t"]

/-- Regex `[0-9A-Fa-f]`. -/
def hexChar (c : Char) : Bool :=
  c.isDigit ∨ ('a' ≤ c ∧ c ≤ 'f') ∨ ('A' ≤ c ∧ c ≤ 'F')

/-- `n` repetitions of the group `[0-9A-Fa-f]{2}\s+` from the start.  The hex
class and `\s` are disjoint, so greedy matching is deterministic. -/
def matchHexGroups : Nat → List Char → Bool
  | 0, _ => true
  | n + 1, c1 :: c2 :: rest =>
    if hexChar c1 ∧ hexChar c2 then
      let ws := rest.takeWhile pyWs
      if ws = [] then false else matchHexGroups n (rest.drop ws.length)
    else false
  | _ + 1, _ => false

/-- `KernelLogParser._is_continuation_line`. -/
def is_continuation_line (message : List Char) : Bool :=
  if message = [] then false
  else if contMarkers.any (fun m => m.data.isPrefixOf message) then true
  else if matchHexGroups 6 message then true
  else
    match message with
    | c1 :: c2 :: _ => (c1 = '\t' ∨ c1 = ' ') ∧ (c2 = '\t' ∨ c2 = ' ')
    | _ => false

/-- Regex `on CPU (?P<cpu>\d+)` with `re.I`, tried at one position. -/
def tryOnCpuAt (l : List Char) : Option Nat :=
  if (l.take 7).map Char.toLower = "on cpu ".data then
    let ds := (l.drop 7).takeWhile Char.isDigit
    if ds = [] then none else some (natOfDigits ds)
  else none

/-- `re.search` for the first CPU pattern: leftmost position wins. -/
def searchOnCpu : List Char → Option Nat
  | [] => none
  | c :: rest =>
    match tryOnCpuAt (c :: rest) with
    | some n => some n
    | none => searchOnCpu rest

/-- Regex `CPU[:#\s]+(?P<cpu>\d+)` with `re.I`, tried at one position.
`[:#\s]` and `\d` are disjoint, so greedy matching is deterministic. -/
def tryCpuSepAt (l : List Char) : Option Nat :=
  if (l.take 3).map Char.toLower = "cpu".data then
    let after := l.drop 3
    let seps := after.takeWhile (fun c => c = ':' ∨ c = '#' ∨ pyWs c)
    if seps = [] then none
    else
      let ds := (after.drop seps.length).takeWhile Char.isDigit
      if ds = [] then none else some (natOfDigits ds)
  else none

/-- `re.search` for the second CPU pattern. -/
def searchCpuSep : List Char → Option Nat
  | [] => none
  | c :: rest =>
    match tryCpuSepAt (c :: rest) with
    | some n => some n
    | none => searchCpuSep rest

/-- `KernelLogParser._extract_cpu`: first pattern that matches wins
(`int` on a `\d+` group never fails). -/
def extract_cpu (message : List Char) : Option Nat :=
  match searchOnCpu message with
  | some n => some n
  | none => searchCpuSep message

/-- `DMESG_PATTERN = ^\[\s*(?P<timestamp>[\d.]+)\]\s+(?P<rest>.*)$` as a
deterministic scanner (`\s`, `[\d.]` and `]` are pairwise disjoint where
they meet).  Returns the timestamp group and the rest group. -/
def dmesgMatch (text : List Char) : Option (List Char × List Char) :=
  match text with
  | c0 :: r0 =>
    if c0 = '[' then
      let r1 := r0.dropWhile pyWs
      let ts := r1.takeWhile tsChar
      if ts = [] then none
      else
        match r1.drop ts.length with
        | c1 :: r2 =>
          if c1 = ']' then
            let sp := r2.takeWhile pyWs
            if sp = [] then none else some (ts, r2.drop sp.length)
          else none
        | [] => none
    else none
  | [] => none

/-- Inline priority regex `^<(?P<level>\d)>(?P<rest>.*)$`. -/
def prioMatch (l : List Char) : Option (Nat × List Char) :=
  match l with
  | c0 :: l1 =>
    if c0 = '<' then
      match l1 with
      | d :: l2 =>
        if d.isDigit then
          match l2 with
          | c2 :: tail => if c2 = '>' then some (d.toNat - '0'.toNat, tail) else none
          | [] => none
        else none
      | [] => none
    else none
  | [] => none

/-- Character class `[^\[\]:]` of `PROCESS_PATTERN`'s process group. -/
def procChar (c : Char) : Bool :=
  ¬(c = '[' ∨ c = ']' ∨ c = ':')

/-- `PROCESS_PATTERN = ^(?P<process>[^\[\]:]+)\[(?P<pid>\d+)\]:\s*(?P<message>.*)$`.
The process class excludes `[`, so the greedy scan cannot backtrack usefully;
the match is deterministic.  Returns (process, pid, message). -/
def processMatch (l : List Char) : Option (List Char × Nat × List Char) :=
  let proc := l.takeWhile procChar
  if proc = [] then none
  else
    match l.drop proc.length with
    | c0 :: r1 =>
      if c0 = '[' then
        let ds := r1.takeWhile Char.isDigit
        if ds = [] then none
        else
          match r1.drop ds.length with
          | c1 :: r2 =>
            if c1 = ']' then
              match r2 with
              | c2 :: r3 =>
                if c2 = ':' then some (proc, natOfDigits ds, r3.dropWhile pyWs)
                else none
              | [] => none
            else none
          | [] => none
      else none
    | [] => none

/-- Subsystem/sep character classes of `KERNEL_PREFIX`. -/
def subChar (c : Char) : Bool :=
  ¬(c = ':' ∨ c = '>' ∨ pyWs c)

def sepChar (c : Char) : Bool :=
  c = ':' ∨ c = '.' ∨ pyWs c

/-- Backtracking of `(?:(?P<subsystem>[^:>\s]+)[:.\s]+)?`: the regex engine
tries subsystem lengths from the maximal `[^:>\s]` run downwards and takes
the first length followed by at least one `[:.\s]` character; on success the
separator run is consumed greedily.  `none` means the optional group is
skipped. -/
def subTryLen (tail : List Char) : Nat → Option (List Char × List Char)
  | 0 => none
  | k + 1 =>
    match tail.drop (k + 1) with
    | c :: r =>
      if sepChar c then some (tail.take (k + 1), (c :: r).dropWhile sepChar)
      else subTryLen tail k
    | [] => subTryLen tail k

/-- `KERNEL_PREFIX = ^<(\d)>(?:(?P<subsystem>[^:>\s]+)[:.\s]+)?(.*)$`.
Returns (level, optional subsystem, message group). -/
def kernelPrefixMatch (l : List Char) : Option (Nat × Option (List Char) × List Char) :=
  match l with
  | c0 :: l1 =>
    if c0 = '<' then
      match l1 with
      | d :: l2 =>
        if d.isDigit then
          match l2 with
          | c2 :: tail =>
            if c2 = '>' then
              match subTryLen tail (tail.takeWhile subChar).length with
              | some (sub, msg) => some (d.toNat - '0'.toNat, some sub, msg)
              | none => some (d.toNat - '0'.toNat, none, tail)
            else none
          | [] => none
        else none
      | [] => none
    else none
  | [] => none

/-- `KernelLogParser._parse_kernel_prefix` (the no-timestamp fallback path).
`text` is the stripped line, which the source also uses as `raw` here. -/
def parse_kernel_prefix_fallback (text : List Char) (source : String) : Option KernelEvent :=
  match kernelPrefixMatch text with
  | none => none
  | some (level, subOpt, msg) =>
    let sevName := (SEVERITY_LEVELS level).getD "UNKNOWN"
    some
      { timestampMonotonic := none
        severity := normalize_severity sevName
        subsystem :=
          match subOpt with
          | some s => if s = [] then "KERNEL" else String.mk s
          | none => "KERNEL"
        message := String.mk (stripList msg)
        raw := String.mk text
        source := source
        pid := none
        cpu := none
        annotations := [] }

/-- Lines 141–149 of the source: try the inline priority prefix on the
stripped rest; on a match map the digit through `SEVERITY_LEVELS.get` (no
default — 8 and 9 give `None`) and strip the remainder. -/
def prioStep (rest1 : List Char) : Option String × List Char :=
  match prioMatch rest1 with
  | some (level, tail) => (SEVERITY_LEVELS level, stripList tail)
  | none => (none, rest1)

/-- Lines 151–179 of the source: `PROCESS_PATTERN` first, else the bounded
colon search.  Returns (subsystem, pid, message). -/
def subsystemStep (rest2 : List Char) : Option (List Char) × Option Nat × List Char :=
  match processMatch rest2 with
  | some (proc, pidN, msg) => (some proc, some pidN, msg)
  | none =>
    let pre := rest2.takeWhile (fun c => c ≠ ':')
    let idx := pre.length
    if idx < rest2.length ∧ 0 < idx ∧ idx < 50 then
      let pot := stripList pre
      if pot.length < 30 ∧ ¬pot.contains ' ' ∧ pot ≠ [] then
        (some pot, none, stripList (rest2.drop (idx + 1)))
      else (none, none, rest2)
    else (none, none, rest2)

/-- The timestamped branch of `KernelLogParser.parse_dmesg_line`, from the
matched `DMESG_PATTERN` groups onwards (lines 136–220 of the source). -/
def buildTimestamped (ts rest0 : List Char) (raw source : String) : KernelEvent :=
  let ps := prioStep (stripList rest0)
  let spm := subsystemStep ps.2
  let message := spm.2.2
  let sevName :=
    match ps.1 with
    | some s => s
    | none => infer_severity message
  { timestampMonotonic := parse_timestamp ts
    severity := normalize_severity sevName
    subsystem :=
      match spm.1 with
      | some s => if s = [] then "KERNEL" else String.mk s
      | none => "KERNEL"
    message := String.mk message
    raw := raw
    source := source
    pid := spm.2.1
    cpu := extract_cpu message
    annotations := if is_continuation_line message then [("continuation", true)] else [] }

/-- `KernelLogParser.parse_dmesg_line`.  The `try/except` wrapper never fires
in this pure model; its `None` outcomes (empty line, empty stripped text, no
matching format) are explicit. -/
def parse_dmesg_line (line : String) (source : String) : Option KernelEvent :=
  if line.data = [] then none
  else
    let raw := String.mk (rstripNl line.data)
    let text := stripList line.data
    if text = [] then none
    else
      match dmesgMatch text with
      | some (ts, rest0) => some (buildTimestamped ts rest0 raw source)
      | none => parse_kernel_prefix_fallback text source

/-! ### Source adapters (`src/core/sources.py`), pure part

Both snapshot methods are modelled from the captured stdout of the external
tool onwards: `result.stdout.strip().split('\n')` and a parse of every line.
Process management, timeouts and the error raises act before this pure tail
and do not affect the returned event list. -/

/-- The lines a snapshot iterates: `result.stdout.strip().split('\n')`. -/
def snapshotLines (stdout : String) : List String :=
  (splitNl (stripList stdout.data)).map String.mk

/-- `DmesgSource.get_snapshot`: the events returned (parsed from every
line of the full output) and the `last_lines` field
(`…split('\n')[-self.buffer_size:]`). -/
def dmesg_get_snapshot (bufferSize : Nat) (stdout : String) :
    List KernelEvent × List String :=
  ((snapshotLines stdout).filterMap (fun ln => parse_dmesg_line ln "dmesg"),
   pyLastSlice bufferSize (snapshotLines stdout))

/-- `JournalctlSource.get_snapshot`: events parsed from the stdout of
`journalctl -k -n <buffer_size> -o short`. -/
def journalctl_get_snapshot (stdout : String) : List KernelEvent :=
  (snapshotLines stdout).filterMap (fun ln => parse_dmesg_line ln "journal")

/-- A live-stream iteration parses the stripped decoded line
(`DmesgSource.stream_live` / `JournalctlSource.stream_live`). -/
def stream_parse_line (decoded : String) (source : String) : Option KernelEvent :=
  parse_dmesg_line (pyStrip decoded) source

/-! ### Engine (`src/core/engine.py`) -/

/-- `bool(event.annotations.get('continuation'))`. -/
def isContEvent (e : KernelEvent) : Bool :=
  (e.annotations.lookup "continuation").getD false

/-- Value of key `k` after `dict.update(new)` when `k` was already present
with value `v`. -/
def updateVal (new : List (String × Bool)) (k : String) (v : Bool) : Bool :=
  match new.lookup k with
  | some w => w
  | none => v

/-- Python `dict.update`: existing keys keep their position and take the
new value; keys only in `new` are appended in order. -/
def dict_update (old new : List (String × Bool)) : List (String × Bool) :=
  old.map (fun kv => (kv.1, updateVal new kv.1 kv.2))
  ++ new.filter (fun kv => (old.lookup kv.1).isNone)

/-- The continuation merge of `KernelLogEngine._run_stream` (lines 119–124):
`last.message += '\n' + event.message`, same for `raw`
(`x or ''` is the identity on strings), `last.annotations.update(...)`. -/
def merge_continuation (last ev : KernelEvent) : KernelEvent :=
  { last with
      message := last.message ++ "\n" ++ ev.message
      raw := last.raw ++ "\n" ++ ev.raw
      annotations := dict_update last.annotations ev.annotations }

/-- `collections.deque(maxlen := m).append`: keep the most recent `m`
entries, evicting from the left (`maxlen = 0` keeps nothing). -/
def deque_append (maxlen : Nat) (buf : List KernelEvent) (e : KernelEvent) :
    List KernelEvent :=
  if buf.length < maxlen then buf ++ [e]
  else (buf ++ [e]).drop (buf.length + 1 - maxlen)

/-- One iteration of the consumption loop body (`_run_stream`, lines
109–150) on one event: returns the new buffer and the event handed to the
subscriber callbacks. -/
def run_stream_step (maxlen : Nat) (buf : List KernelEvent) (ev : KernelEvent) :
    List KernelEvent × KernelEvent :=
  match buf.getLast? with
  | some last =>
    if isContEvent ev then
      (buf.dropLast ++ [merge_continuation last ev], merge_continuation last ev)
    else (deque_append maxlen buf ev, ev)
  | none => (deque_append maxlen buf ev, ev)

/-- The consumption loop folded over a finite prefix of the live stream. -/
def run_stream (maxlen : Nat) (buf : List KernelEvent) (evs : List KernelEvent) :
    List KernelEvent :=
  evs.foldl (fun b e => (run_stream_step maxlen b e).1) buf

/-- The last `n` entries of a list (what a `deque(maxlen := n)` retains). -/
def lastN {α : Type} (n : Nat) (l : List α) : List α :=
  l.drop (l.length - n)

/-! ### Plugin manager (`src/plugins/manager.py`) -/

/-- Python list comparison `avail >= req` on integer lists: elementwise,
first difference decides, a strict prefix is smaller. -/
def pyListGE : List Int → List Int → Bool
  | [], [] => true
  | [], _ :: _ => false
  | _ :: _, [] => true
  | a :: as_, b :: bs => if a > b then true else if a < b then false else pyListGE as_ bs

/-- `[int(x) for x in s.split('.')]`: `none` models the `ValueError`. -/
def versionParts (s : String) : Option (List Int) :=
  (splitOnChar '.' s.data).mapM (fun part => pyInt (String.mk part))

/-- `PluginManager._check_version_compatibility`: split both strings on `.`,
convert every part with `int` (any `ValueError` ⇒ `False`), then Python list
`>=`. -/
def check_version_compatibility (required available : String) : Bool :=
  match versionParts required, versionParts available with
  | some req, some avail => pyListGE avail req
  | _, _ => false

/-- Outcome of one plugin's `on_event` coroutine. -/
inductive HookOutcome where
  | ok
  | raised
  | cancelled
  deriving Repr, DecidableEq

/-- `PluginManager.process_event`'s loop over the enabled names: names not
in `self.plugins` are skipped; `asyncio.CancelledError` re-raises (aborting
the loop); any other exception is logged and skipped.  Accumulates the
invoked names; the Bool records whether a cancellation propagated. -/
def process_event_go (loaded : List (String × (KernelEvent → HookOutcome)))
    (e : KernelEvent) : List String → List String → List String × Bool
  | [], acc => (acc, false)
  | n :: rest, acc =>
    match loaded.lookup n with
    | none => process_event_go loaded e rest acc
    | some hook =>
      match hook e with
      | .cancelled => (acc ++ [n], true)
      | _ => process_event_go loaded e rest (acc ++ [n])

/-- `PluginManager.process_event`: which hooks ran (in iteration order of the
enabled set) and whether a cancellation aborted the call. -/
def process_event (loaded : List (String × (KernelEvent → HookOutcome)))
    (enabled : List String) (e : KernelEvent) : List String × Bool :=
  process_event_go loaded e enabled []

/-- Abstraction of a plugin module on disk, as `load_plugin` observes it:
whether `_load_plugin_module` finds a `KernelPlugin` subclass, the
`metadata.min_engine_version` attribute if present, and what the `on_load`
hook returns. -/
structure PluginModule where
  hasPluginClass : Bool
  minEngineVersion : Option String
  onLoadSucceeds : Bool
  deriving Repr, DecidableEq

/-- The manager state `load_plugin` reads and writes. -/
structure ManagerState where
  engineVersion : String
  plugins : List String
  hasContext : Bool
  deriving Repr, DecidableEq

/-- Result of `await manager.load_plugin(name)`: a returned Bool, or a
raised `PluginLoadError` (every exception inside is re-raised as one). -/
inductive LoadResult where
  | ok (b : Bool)
  | loadError
  deriving Repr, DecidableEq

/-- `PluginManager.load_plugin` with `_load_plugin_module` inlined:
`file = none` models a missing plugin file.  (`_load_plugin_module` never
returns `None` — it raises instead — so the `if not plugin` branch of the
source is dead and not modelled.) -/
def load_plugin (st : ManagerState) (name : String) (file : Option PluginModule) :
    LoadResult × ManagerState :=
  if name ∈ st.plugins then (.ok true, st)
  else
    match file with
    | none => (.loadError, st)
    | some m =>
      if ¬m.hasPluginClass then (.loadError, st)
      else
        let versionOk :=
          match m.minEngineVersion with
          | some req => check_version_compatibility req st.engineVersion
          | none => true
        if versionOk = false then (.loadError, st)
        else if st.hasContext ∧ ¬m.onLoadSucceeds then (.ok false, st)
        else (.ok true, { st with plugins := st.plugins ++ [name] })

/-! ### Spec-side definitions and sample data -/

/-- Modelled from the spec's words for the version-comparison claim: strict
lexicographic order on integer lists in which a strict prefix (the shorter
list) compares as smaller. -/
inductive LexLT : List Int → List Int → Prop where
  | nil (b : Int) (bs : List Int) : LexLT [] (b :: bs)
  | head {a b : Int} (h : a < b) (as_ bs : List Int) : LexLT (a :: as_) (b :: bs)
  | tail {a : Int} {as_ bs : List Int} (h : LexLT as_ bs) : LexLT (a :: as_) (a :: bs)

/-- Spec-side "list-lexicographically greater than or equal". -/
def specLexGE (a b : List Int) : Prop :=
  a = b ∨ LexLT b a

/-- Sample non-continuation events and a continuation event, used by the
concrete witnesses below. -/
def evFirst : KernelEvent :=
  { timestampMonotonic := none, severity := "INFO", subsystem := "KERNEL",
    message := "first", raw := "first", source := "dmesg",
    pid := none, cpu := none, annotations := [] }

def evSecond : KernelEvent :=
  { timestampMonotonic := none, severity := "INFO", subsystem := "KERNEL",
    message := "second", raw := "second", source := "dmesg",
    pid := none, cpu := none, annotations := [] }

def evCont : KernelEvent :=
  { timestampMonotonic := none, severity := "EMERG", subsystem := "KERNEL",
    message := "Call Trace:", raw := "Call Trace:", source := "dmesg",
    pid := none, cpu := none, annotations := [("continuation", true)] }

/-- Sample plugin hooks for the `process_event` witness: one raising a
non-cancellation exception, one succeeding. -/
def hookRaise : KernelEvent → HookOutcome := fun _ => .raised

def hookOk : KernelEvent → HookOutcome := fun _ => .ok

def loadedSample : List (String × (KernelEvent → HookOutcome)) :=
  [("alpha", hookRaise), ("beta", hookOk)]

/-- Sample manager state: engine version "1.0", nothing loaded, a context set. -/
def stSample : ManagerState :=
  { engineVersion := "1.0", plugins := [], hasContext := true }

/-! ## Helper lemmas -/

theorem lastN_length_le {α : Type} (n : ℕ) (l : List α) : (lastN n l).length ≤ n := by
  simp only [lastN, List.length_drop]
  omega

theorem lastN_of_length_le {α : Type} (n : ℕ) (l : List α) (h : l.length ≤ n) :
    lastN n l = l := by
  simp [lastN, Nat.sub_eq_zero_of_le h]

theorem deque_append_eq_lastN (maxlen : ℕ) (buf : List KernelEvent) (e : KernelEvent) :
    deque_append maxlen buf e = lastN maxlen (buf ++ [e]) := by
  unfold deque_append lastN
  have hlen : (buf ++ [e]).length = buf.length + 1 := by simp
  rw [hlen]
  by_cases h : buf.length < maxlen
  · rw [if_pos h]
    have h0 : buf.length + 1 - maxlen = 0 := by omega
    rw [h0, List.drop_zero]
  · rw [if_neg h]

theorem lastN_absorb {α : Type} (n : ℕ) (a b : List α) :
    lastN n (lastN n a ++ b) = lastN n (a ++ b) := by
  unfold lastN
  rcases le_or_lt a.length n with h | h
  · have h0 : a.length - n = 0 := by omega
    rw [h0, List.drop_zero]
  · rw [List.drop_append_eq_append_drop, List.drop_drop, List.drop_append_eq_append_drop]
    congr 1
    · congr 1
      simp only [List.length_append, List.length_drop]
      omega
    · congr 1
      simp only [List.length_append, List.length_drop]
      omega

theorem run_stream_step_noncont (maxlen : ℕ) (buf : List KernelEvent) (e : KernelEvent)
    (h : isContEvent e = false) :
    (run_stream_step maxlen buf e).1 = deque_append maxlen buf e := by
  unfold run_stream_step
  cases hl : buf.getLast? <;> simp [h]

theorem run_stream_cons (maxlen : ℕ) (buf : List KernelEvent) (e : KernelEvent)
    (evs : List KernelEvent) :
    run_stream maxlen buf (e :: evs) =
      run_stream maxlen ((run_stream_step maxlen buf e).1) evs := rfl

theorem run_stream_noncont (maxlen : ℕ) :
    ∀ (evs : List KernelEvent) (buf : List KernelEvent), buf.length ≤ maxlen →
      (∀ e ∈ evs, isContEvent e = false) →
      run_stream maxlen buf evs = lastN maxlen (buf ++ evs) := by
  intro evs
  induction evs with
  | nil =>
    intro buf hb _
    simp only [run_stream, List.foldl_nil, List.append_nil]
    exact (lastN_of_length_le _ _ hb).symm
  | cons e rest ih =>
    intro buf hb hall
    have he : isContEvent e = false := hall e (by simp)
    have hrest : ∀ x ∈ rest, isContEvent x = false := fun x hx => hall x (by simp [hx])
    rw [run_stream_cons, run_stream_step_noncont _ _ _ he, deque_append_eq_lastN,
      ih _ (lastN_length_le _ _) hrest, lastN_absorb]
    congr 1
    simp

theorem run_stream_step_length_le (maxlen : ℕ) (buf : List KernelEvent) (e : KernelEvent)
    (h : buf.length ≤ maxlen) :
    ((run_stream_step maxlen buf e).1).length ≤ maxlen := by
  unfold run_stream_step
  cases hl : buf.getLast? with
  | none =>
    dsimp only
    rw [deque_append_eq_lastN]
    exact lastN_length_le _ _
  | some last =>
    dsimp only
    by_cases hc : isContEvent e
    · rw [if_pos hc]
      have hne : buf ≠ [] := by
        intro hh
        subst hh
        simp at hl
      have h1 : 1 ≤ buf.length := List.length_pos.mpr hne
      simp only [List.length_append, List.length_dropLast, List.length_cons,
        List.length_nil]
      omega
    · rw [if_neg hc, deque_append_eq_lastN]
      exact lastN_length_le _ _

theorem run_stream_length_le (maxlen : ℕ) :
    ∀ (evs : List KernelEvent) (buf : List KernelEvent), buf.length ≤ maxlen →
      (run_stream maxlen buf evs).length ≤ maxlen := by
  intro evs
  induction evs with
  | nil => intro buf hb; simpa [run_stream] using hb
  | cons e rest ih =>
    intro buf hb
    rw [run_stream_cons]
    exact ih _ (run_stream_step_length_le _ _ _ hb)

theorem lookup_append (l1 l2 : List (String × Bool)) (k : String) :
    (l1 ++ l2).lookup k =
      match l1.lookup k with
      | some v => some v
      | none => l2.lookup k := by
  induction l1 with
  | nil => simp
  | cons a t ih =>
    obtain ⟨k0, v0⟩ := a
    by_cases hk : k = k0
    · subst hk
      simp [List.lookup_cons]
    · have hb : (k == k0) = false := beq_eq_false_iff_ne.mpr hk
      simp [List.lookup_cons, hb, ih]

theorem lookup_map_updateVal (new l : List (String × Bool)) (k : String) :
    (l.map (fun kv => (kv.1, updateVal new kv.1 kv.2))).lookup k
      = (l.lookup k).map (updateVal new k) := by
  induction l with
  | nil => simp
  | cons a t ih =>
    obtain ⟨k0, v0⟩ := a
    by_cases hk : k = k0
    · subst hk
      simp [List.lookup_cons]
    · have hb : (k == k0) = false := beq_eq_false_iff_ne.mpr hk
      simp [List.lookup_cons, hb, ih]

theorem lookup_filter_isNone (old new : List (String × Bool)) (k : String) :
    (new.filter (fun kv => (old.lookup kv.1).isNone)).lookup k
      = if (old.lookup k).isNone then new.lookup k else none := by
  induction new with
  | nil => simp
  | cons a t ih =>
    obtain ⟨k0, v0⟩ := a
    by_cases hk : k = k0
    · subst hk
      cases hp : (old.lookup k).isNone <;>
        simp [List.filter_cons, hp, List.lookup_cons, ih]
    · have hb : (k == k0) = false := beq_eq_false_iff_ne.mpr hk
      cases hp : (old.lookup k0).isNone <;>
        simp [List.filter_cons, hp, List.lookup_cons, hb, ih]

theorem lookup_dict_update (old new : List (String × Bool)) (k : String) :
    (dict_update old new).lookup k =
      match new.lookup k with
      | some v => some v
      | none => old.lookup k := by
  unfold dict_update
  rw [lookup_append, lookup_map_updateVal, lookup_filter_isNone]
  cases ho : old.lookup k <;> cases hn : new.lookup k <;> simp [updateVal, ho, hn]

/-! ## Claims -/

/-- C3: when the consumption loop receives a continuation-flagged event and
the buffer is non-empty, the buffer keeps its length (no new slot); the last
entry's message and raw each become old ++ `"\n"` ++ new; its annotations
become the union of both maps (the event's entries winning on a shared key);
and the subscribers are notified with the merged entry, not the continuation
event. -/
theorem c3_continuation_merge (maxlen : ℕ) (buf : List KernelEvent)
    (last ev : KernelEvent) (hc : isContEvent ev = true)
    (hl : buf.getLast? = some last) :
    run_stream_step maxlen buf ev =
      (buf.dropLast ++ [merge_continuation last ev], merge_continuation last ev) ∧
    (buf.dropLast ++ [merge_continuation last ev]).length = buf.length ∧
    (merge_continuation last ev).message = last.message ++ "\n" ++ ev.message ∧
    (merge_continuation last ev).raw = last.raw ++ "\n" ++ ev.raw ∧
    ∀ k, ((merge_continuation last ev).annotations).lookup k =
      match ev.annotations.lookup k with
      | some v => some v
      | none => last.annotations.lookup k := by
  have hne : buf ≠ [] := by
    intro hh
    subst hh
    simp at hl
  refine ⟨?_, ?_, rfl, rfl, ?_⟩
  · unfold run_stream_step
    rw [hl]
    simp [hc]
  · have h1 : 1 ≤ buf.length := List.length_pos.mpr hne
    simp only [List.length_append, List.length_dropLast, List.length_cons,
      List.length_nil]
    omega
  · intro k
    exact lookup_dict_update last.annotations ev.annotations k

/-- Witness for C3 at a concrete buffer and continuation event. -/
theorem c3_witness :
    run_stream_step 5 [evFirst] evCont =
      ([merge_continuation evFirst evCont], merge_continuation evFirst evCont) ∧
    (merge_continuation evFirst evCont).message = "first\nCall Trace:" := by
  have h := c3_continuation_merge 5 [evFirst] evFirst evCont (by decide) (by decide)
  exact ⟨by simpa using h.1, by decide⟩

/-- C4: for every capacity N ≥ 1, appending N+1 non-continuation events to
an empty buffer of capacity N leaves exactly N entries with the oldest (the
first appended) evicted, and the buffer length never exceeds the capacity
after any sequence of loop iterations starting within capacity. -/
theorem c4_buffer_capacity (N : ℕ) (hN : 1 ≤ N) (evs : List KernelEvent)
    (hlen : evs.length = N + 1) (hnc : ∀ e ∈ evs, isContEvent e = false) :
    run_stream N [] evs = evs.drop 1 ∧
    (run_stream N [] evs).length = N ∧
    (∀ (buf more : List KernelEvent), buf.length ≤ N →
      (run_stream N buf more).length ≤ N) := by
  have h1 : run_stream N [] evs = evs.drop 1 := by
    rw [run_stream_noncont N evs [] (by simp) hnc]
    simp only [lastN, List.nil_append, hlen]
    congr 1
    omega
  refine ⟨h1, ?_, fun buf more hb => run_stream_length_le N more buf hb⟩
  rw [h1, List.length_drop, hlen]
  omega

/-- Witness for C4 at capacity 1 and two concrete events. -/
theorem c4_witness :
    run_stream 1 [] [evFirst, evSecond] = [evSecond] ∧
    (run_stream 1 [] [evFirst, evSecond]).length = 1 := by
  have h := c4_buffer_capacity 1 (Nat.le_refl 1) [evFirst, evSecond] (by decide)
    (by decide)
  exact ⟨by simpa using h.1, h.2.1⟩

theorem process_event_go_no_cancel (loaded : List (String × (KernelEvent → HookOutcome)))
    (e : KernelEvent) :
    ∀ (pending acc : List String),
      (∀ n ∈ pending, ∀ hook, loaded.lookup n = some hook → hook e ≠ .cancelled) →
      process_event_go loaded e pending acc =
        (acc ++ pending.filter (fun n => (loaded.lookup n).isSome), false) := by
  intro pending
  induction pending with
  | nil =>
    intro acc _
    simp [process_event_go]
  | cons n rest ih =>
    intro acc h
    have hrest : ∀ m ∈ rest, ∀ hook, loaded.lookup m = some hook → hook e ≠ .cancelled :=
      fun m hm => h m (by simp [hm])
    cases hn : loaded.lookup n with
    | none =>
      simp only [process_event_go, hn]
      rw [ih _ hrest]
      simp [List.filter_cons, hn]
    | some hook =>
      have hnc : hook e ≠ .cancelled := h n (by simp) hook hn
      cases ho : hook e with
      | cancelled => exact absurd ho hnc
      | ok =>
        simp only [process_event_go, hn, ho]
        rw [ih _ hrest]
        simp [List.filter_cons, hn]
      | raised =>
        simp only [process_event_go, hn, ho]
        rw [ih _ hrest]
        simp [List.filter_cons, hn]

theorem process_event_go_prepend (loaded : List (String × (KernelEvent → HookOutcome)))
    (e : KernelEvent) :
    ∀ (pre rest acc : List String),
      (∀ m ∈ pre, ∀ hook, loaded.lookup m = some hook → hook e ≠ .cancelled) →
      process_event_go loaded e (pre ++ rest) acc =
        process_event_go loaded e rest
          (acc ++ pre.filter (fun n => (loaded.lookup n).isSome)) := by
  intro pre
  induction pre with
  | nil =>
    intro rest acc _
    simp
  | cons n t ih =>
    intro rest acc h
    have ht : ∀ m ∈ t, ∀ hook, loaded.lookup m = some hook → hook e ≠ .cancelled :=
      fun m hm => h m (by simp [hm])
    rw [List.cons_append]
    cases hn : loaded.lookup n with
    | none =>
      simp only [process_event_go, hn]
      rw [ih _ _ ht]
      simp [List.filter_cons, hn]
    | some hook =>
      have hnc : hook e ≠ .cancelled := h n (by simp) hook hn
      cases ho : hook e with
      | cancelled => exact absurd ho hnc
      | ok =>
        simp only [process_event_go, hn, ho]
        rw [ih _ _ ht]
        simp [List.filter_cons, hn]
      | raised =>
        simp only [process_event_go, hn, ho]
        rw [ih _ _ ht]
        simp [List.filter_cons, hn]

/-- C8: `process_event` invokes the hook of every enabled-and-loaded plugin
even when some hooks raise non-cancellation exceptions (no exception
propagates, the call completes); a hook raising `asyncio.CancelledError`
aborts the whole call after the plugins iterated before it. -/
theorem c8_plugin_fault_isolation (loaded : List (String × (KernelEvent → HookOutcome)))
    (enabled : List String) (e : KernelEvent) :
    ((∀ n ∈ enabled, ∀ hook, loaded.lookup n = some hook → hook e ≠ .cancelled) →
      process_event loaded enabled e =
        (enabled.filter (fun n => (loaded.lookup n).isSome), false)) ∧
    (∀ pre n post hook, enabled = pre ++ n :: post →
      (∀ m ∈ pre, ∀ h2, loaded.lookup m = some h2 → h2 e ≠ .cancelled) →
      loaded.lookup n = some hook → hook e = .cancelled →
      process_event loaded enabled e =
        (pre.filter (fun m => (loaded.lookup m).isSome) ++ [n], true)) := by
  constructor
  · intro h
    unfold process_event
    rw [process_event_go_no_cancel loaded e enabled [] h]
    simp
  · intro pre n post hook henb hpre hn hc
    subst henb
    unfold process_event
    rw [process_event_go_prepend loaded e pre (n :: post) [] hpre]
    unfold process_event_go
    rw [hn]
    simp [hc]

/-- Witness for C8: with plugin "alpha" raising and "beta" succeeding, both
hooks run and the call completes. -/
theorem c8_witness :
    process_event loadedSample ["alpha", "beta"] evFirst = (["alpha", "beta"], false) := by
  have h := (c8_plugin_fault_isolation loadedSample ["alpha", "beta"] evFirst).1 ?_
  · rw [h]
    rfl
  · intro n hn hook hl
    have hn2 : n = "alpha" ∨ n = "beta" := by simpa using hn
    rcases hn2 with rfl | rfl
    · rw [show loadedSample.lookup "alpha" = some hookRaise from rfl] at hl
      cases hl
      decide
    · rw [show loadedSample.lookup "beta" = some hookOk from rfl] at hl
      cases hl
      decide

theorem pyListGE_iff : ∀ (a b : List Int), pyListGE a b = true ↔ specLexGE a b := by
  intro a
  induction a with
  | nil =>
    intro b
    cases b with
    | nil => exact ⟨fun _ => Or.inl rfl, fun _ => rfl⟩
    | cons y ys =>
      constructor
      · intro h
        exact absurd h (by simp [pyListGE])
      · intro h
        rcases h with h | h
        · exact absurd h (by simp)
        · cases h
  | cons x xs ih =>
    intro b
    cases b with
    | nil => exact ⟨fun _ => Or.inr (LexLT.nil x xs), fun _ => rfl⟩
    | cons y ys =>
      simp only [pyListGE]
      by_cases hgt : x > y
      · rw [if_pos hgt]
        exact ⟨fun _ => Or.inr (LexLT.head hgt ys xs), fun _ => rfl⟩
      · by_cases hlt : x < y
        · rw [if_neg hgt, if_pos hlt]
          constructor
          · intro h
            exact absurd h (by decide)
          · intro h
            rcases h with h | h
            · cases h
              omega
            · cases h with
              | head h2 => omega
              | tail h2 => omega
        · have hxy : x = y := by omega
          subst hxy
          rw [if_neg hgt, if_neg hlt]
          constructor
          · intro h
            rcases (ih ys).mp h with rfl | hlex
            · exact Or.inl rfl
            · exact Or.inr (LexLT.tail hlex)
          · intro h
            apply (ih ys).mpr
            rcases h with heq | hlex
            · cases heq
              exact Or.inl rfl
            · cases hlex with
              | head h2 => omega
              | tail h2 => exact Or.inr h2

/-- C9: the version-compatibility check succeeds exactly when both dotted
strings convert to integer lists and the engine's list is lexicographically
≥ the required list with a strict prefix comparing as smaller (so required
"1.0" against engine "1" fails); a component that does not convert makes
the check fail. -/
theorem c9_version_check (required available : String) :
    (check_version_compatibility required available = true ↔
      ∃ req avail, versionParts required = some req ∧
        versionParts available = some avail ∧ specLexGE avail req) ∧
    check_version_compatibility "1.0" "1" = false := by
  constructor
  · unfold check_version_compatibility
    cases hr : versionParts required with
    | none => simp [hr]
    | some req =>
      cases ha : versionParts available with
      | none => simp [hr, ha]
      | some avail =>
        dsimp only
        rw [pyListGE_iff]
        constructor
        · intro h
          exact ⟨req, avail, rfl, rfl, h⟩
        · rintro ⟨req2, avail2, h1, h2, h3⟩
          cases h1
          cases h2
          exact h3
  · decide

/-- C6 (amended): `load_plugin` raises `PluginLoadError` when the plugin
file is missing, when no `KernelPlugin` subclass is found, and when the
version check fails; but when the `on_load` hook returns `False` it returns
`False` without raising.  In every one of these cases the manager state is
unchanged, so the plugin is not registered. -/
theorem c6_load_failures (st : ManagerState) (name : String)
    (hnot : name ∉ st.plugins) :
    (load_plugin st name none = (.loadError, st)) ∧
    (∀ m : PluginModule, m.hasPluginClass = false →
      load_plugin st name (some m) = (.loadError, st)) ∧
    (∀ (m : PluginModule) (req : String), m.hasPluginClass = true →
      m.minEngineVersion = some req →
      check_version_compatibility req st.engineVersion = false →
      load_plugin st name (some m) = (.loadError, st)) ∧
    (∀ m : PluginModule, m.hasPluginClass = true →
      (match m.minEngineVersion with
       | some req => check_version_compatibility req st.engineVersion
       | none => true) = true →
      st.hasContext = true → m.onLoadSucceeds = false →
      load_plugin st name (some m) = (.ok false, st)) := by
  refine ⟨?_, ?_, ?_, ?_⟩
  · simp [load_plugin, hnot]
  · intro m hm
    simp [load_plugin, hnot, hm]
  · intro m req hm hreq hchk
    simp [load_plugin, hnot, hm, hreq, hchk]
  · intro m hm hver hctx hload
    simp [load_plugin, hnot, hm, hver, hctx, hload]

/-- Counterexample for C6 as stated: with a context set, a qualifying class
and no version constraint, an `on_load` hook returning `False` makes
`load_plugin` return `False` — it does not raise a plugin-load error. -/
theorem c6_counterexample :
    load_plugin stSample "p"
        (some { hasPluginClass := true, minEngineVersion := none, onLoadSucceeds := false })
      = (.ok false, stSample) ∧
    (LoadResult.ok false ≠ LoadResult.loadError) := by
  constructor
  · rfl
  · decide

/-- Witness for C6 at a concrete state: a missing plugin file raises. -/
theorem c6_witness :
    load_plugin stSample "p" none = (.loadError, stSample) :=
  (c6_load_failures stSample "p" (by decide)).1

/-- C2 (amended): the journalctl snapshot returns at most as many events as
the tool printed lines (the tool is invoked with `-n buffer_size`, so at
most `buffer_size`); the dmesg snapshot caps only its `last_lines`
attribute at `buffer_size` — its returned events are parsed from every line
of the output. -/
theorem c2_snapshot_caps :
    (∀ (b : ℕ) (stdout : String), (snapshotLines stdout).length ≤ b →
      (journalctl_get_snapshot stdout).length ≤ b) ∧
    (∀ (b : ℕ) (stdout : String), 1 ≤ b →
      ((dmesg_get_snapshot b stdout).2).length ≤ b) := by
  constructor
  · intro b stdout h
    exact le_trans (List.length_filterMap_le _ _) h
  · intro b stdout hb
    unfold dmesg_get_snapshot pyLastSlice
    have hb0 : ¬b = 0 := by omega
    rw [if_neg hb0]
    dsimp only
    rw [List.length_drop]
    omega

/-- Counterexample for C2 as stated: a dmesg output of two parseable lines
with `buffer_size = 1` yields two events from `get_snapshot`, not one. -/
theorem c2_counterexample :
    ((dmesg_get_snapshot 1 "[1.0] usb: a\n[2.0] usb: b").1).length = 2 ∧
    ¬((dmesg_get_snapshot 1 "[1.0] usb: a\n[2.0] usb: b").1).length ≤ 1 := by
  constructor
  · rfl
  · decide

/-- Witness for C2's amended statement at a one-line journalctl output. -/
theorem c2_witness : (journalctl_get_snapshot "[1.0] usb: a").length ≤ 1 :=
  c2_snapshot_caps.1 1 "[1.0] usb: a" (by decide)

theorem length_dropWhile_le (p : Char → Bool) (l : List Char) :
    (l.dropWhile p).length ≤ l.length := by
  induction l with
  | nil => simp
  | cons a t ih =>
    rw [List.dropWhile_cons]
    by_cases h : p a = true
    · rw [if_pos h]
      exact le_trans ih (by simp)
    · rw [if_neg h]

theorem dropWhile_eq_self_of_length (p : Char → Bool) (l : List Char)
    (h : (l.dropWhile p).length = l.length) : l.dropWhile p = l := by
  cases l with
  | nil => rfl
  | cons a t =>
    rw [List.dropWhile_cons] at h ⊢
    by_cases hp : p a = true
    · rw [if_pos hp] at h
      have := length_dropWhile_le p t
      simp at h
      omega
    · rw [if_neg hp]

theorem dropWhile_head_false (p : Char → Bool) (l : List Char)
    (h : l.dropWhile p = l) : ∀ c, l.head? = some c → p c = false := by
  intro c hc
  cases l with
  | nil => cases hc
  | cons a t =>
    cases hc
    by_cases hp : p c = true
    · rw [List.dropWhile_cons, if_pos hp] at h
      have h1 := length_dropWhile_le p t
      have h2 := congrArg List.length h
      simp at h2
      omega
    · simpa using hp

theorem stripList_parts (l : List Char) (h : stripList l = l) :
    l.dropWhile pyWs = l ∧ l.reverse.dropWhile pyWs = l.reverse := by
  unfold stripList dropTrailing at h
  have h1 : ((l.dropWhile pyWs).reverse.dropWhile pyWs).length ≤ (l.dropWhile pyWs).length := by
    calc ((l.dropWhile pyWs).reverse.dropWhile pyWs).length
        ≤ (l.dropWhile pyWs).reverse.length := length_dropWhile_le _ _
      _ = (l.dropWhile pyWs).length := by simp
  have h2 : (l.dropWhile pyWs).length ≤ l.length := length_dropWhile_le _ _
  have hlen : (((l.dropWhile pyWs).reverse.dropWhile pyWs).reverse).length = l.length := by
    rw [h]
  simp only [List.length_reverse] at hlen
  have hdw : l.dropWhile pyWs = l :=
    dropWhile_eq_self_of_length _ _ (by omega)
  refine ⟨hdw, ?_⟩
  rw [hdw] at h
  have := congrArg List.reverse h
  rwa [List.reverse_reverse] at this

theorem strip_fix_border (l : List Char) (h : stripList l = l) :
    (∀ c, l.head? = some c → pyWs c = false) ∧
    (∀ c, l.getLast? = some c → pyWs c = false) := by
  obtain ⟨h1, h2⟩ := stripList_parts l h
  refine ⟨dropWhile_head_false _ _ h1, ?_⟩
  intro c hc
  apply dropWhile_head_false _ _ h2
  rw [List.head?_reverse]
  exact hc

theorem stripList_eq_self (l : List Char)
    (hh : ∀ c, l.head? = some c → pyWs c = false)
    (hl : ∀ c, l.getLast? = some c → pyWs c = false) : stripList l = l := by
  unfold stripList dropTrailing
  cases l with
  | nil => rfl
  | cons a t =>
    rw [List.dropWhile_cons, if_neg (by simp [hh a rfl])]
    cases hrev : (a :: t).reverse with
    | nil => simp at hrev
    | cons d r =>
      have hd : pyWs d = false := by
        apply hl
        rw [List.getLast?_eq_head?_reverse, hrev]
        rfl
      rw [List.dropWhile_cons, if_neg (by simp [hd]), ← hrev,
        List.reverse_reverse]

theorem rstripNl_of_fix (l : List Char) (h : stripList l = l) : rstripNl l = l := by
  obtain ⟨_, h2⟩ := stripList_parts l h
  unfold rstripNl dropTrailing
  cases hrev : l.reverse with
  | nil =>
    rw [List.reverse_eq_nil_iff] at hrev
    subst hrev
    rfl
  | cons d r =>
    have hd : pyWs d = false := by
      apply dropWhile_head_false _ _ h2
      rw [hrev]
      rfl
    have hdn : (d = '\n') = False := by
      simp only [eq_iff_iff, iff_false]
      intro hdd
      subst hdd
      simp [pyWs] at hd
    rw [List.dropWhile_cons]
    simp only [hdn, decide_False, Bool.false_eq_true, if_false]
    rw [← hrev, List.reverse_reverse]

theorem takeWhile_append_all (p : Char → Bool) (l1 l2 : List Char)
    (h : ∀ c ∈ l1, p c = true) :
    (l1 ++ l2).takeWhile p = l1 ++ l2.takeWhile p := by
  induction l1 with
  | nil => simp
  | cons a t ih =>
    rw [List.cons_append, List.takeWhile_cons, if_pos (h a (by simp)),
      ih (fun c hc => h c (by simp [hc])), List.cons_append]

theorem dropWhile_append_all (p : Char → Bool) (l1 l2 : List Char)
    (h : ∀ c ∈ l1, p c = true) :
    (l1 ++ l2).dropWhile p = l2.dropWhile p := by
  induction l1 with
  | nil => simp
  | cons a t ih =>
    rw [List.cons_append, List.dropWhile_cons, if_pos (h a (by simp))]
    exact ih (fun c hc => h c (by simp [hc]))

theorem tsChar_not_ws (c : Char) (h : tsChar c = true) : pyWs c = false := by
  by_contra hc
  have hws : pyWs c = true := by
    cases hw : pyWs c
    · exact absurd hw hc
    · rfl
  have : c = ' ' ∨ c = '\t' ∨ c = '\n' ∨ c = '\r' ∨ c = '\x0b' ∨ c = '\x0c' := by
    simpa [pyWs] using hws
  rcases this with rfl | rfl | rfl | rfl | rfl | rfl <;> simp [tsChar] at h

/-- Path equation: when the stripped line matches `DMESG_PATTERN`,
`parse_dmesg_line` returns the timestamped build. -/
theorem parse_eq_timestamped (line src : String) (ts rest0 : List Char)
    (hm : dmesgMatch (stripList line.data) = some (ts, rest0)) :
    parse_dmesg_line line src =
      some (buildTimestamped ts rest0 (String.mk (rstripNl line.data)) src) := by
  have hte : stripList line.data ≠ [] := by
    intro hh
    rw [hh] at hm
    simp [dmesgMatch] at hm
  have hne : line.data ≠ [] := by
    intro hh
    apply hte
    rw [hh]
    rfl
  unfold parse_dmesg_line
  rw [if_neg hne, if_neg hte, hm]

/-- Path equation: when the stripped line does not match `DMESG_PATTERN`,
`parse_dmesg_line` falls back to the kernel-prefix form. -/
theorem parse_eq_fallback (line src : String)
    (hm : dmesgMatch (stripList line.data) = none)
    (hne : line.data ≠ []) (hte : stripList line.data ≠ []) :
    parse_dmesg_line line src =
      parse_kernel_prefix_fallback (stripList line.data) src := by
  unfold parse_dmesg_line
  rw [if_neg hne, if_neg hte, hm]

theorem parse_some_ne_nil (line src : String) (ev : KernelEvent)
    (h : parse_dmesg_line line src = some ev) :
    line.data ≠ [] ∧ stripList line.data ≠ [] := by
  constructor
  · intro hh
    unfold parse_dmesg_line at h
    rw [if_pos hh] at h
    cases h
  · intro hh
    unfold parse_dmesg_line at h
    by_cases h0 : line.data = []
    · rw [if_pos h0] at h
      cases h
    · rw [if_neg h0] at h
      simp only [hh, if_pos] at h
      cases h

theorem severity_levels_none (level : Nat) (h : 8 ≤ level) :
    SEVERITY_LEVELS level = none := by
  apply List.get?_eq_none.mpr
  simp [severity_names]
  omega

theorem severity_levels_some_of_le (level : Nat) (h : level ≤ 7) :
    ∃ s, SEVERITY_LEVELS level = some s ∧ s ∈ severity_names := by
  have hlt : level < severity_names.length := by
    simp [severity_names]
    omega
  exact ⟨severity_names.get ⟨level, hlt⟩, List.get?_eq_get hlt,
    List.get_mem _ _ _⟩

theorem infer_severity_mem (m : List Char) : infer_severity m ∈ severity_names := by
  simp only [infer_severity]
  repeat' split
  all_goals decide

theorem normalize_id_of_mem : ∀ s ∈ severity_names, normalize_severity s = s := by
  decide

theorem prioStep_fst_mem (r : List Char) (s : String)
    (h : (prioStep r).1 = some s) : s ∈ severity_names := by
  unfold prioStep at h
  revert h
  cases prioMatch r with
  | none =>
    intro h
    simp at h
  | some pr =>
    intro h
    exact List.get?_mem h

theorem build_severity_mem (ts rest0 : List Char) (raw src : String) :
    (buildTimestamped ts rest0 raw src).severity ∈ severity_names := by
  unfold buildTimestamped
  dsimp only
  cases hp : (prioStep (stripList rest0)).1 with
  | none =>
    rw [normalize_id_of_mem _ (infer_severity_mem _)]
    exact infer_severity_mem _
  | some s =>
    have hs : s ∈ severity_names := prioStep_fst_mem _ _ hp
    rw [normalize_id_of_mem _ hs]
    exact hs

/-- C1 (amended): every parsed event's severity is one of the eight names
on the timestamped path; on the no-timestamp kernel-prefix path it is one
of the eight names for priority digits 0–7 but the literal string
`"UNKNOWN"` for digits 8 and 9. -/
theorem c1_severity (line src : String) (ev : KernelEvent)
    (h : parse_dmesg_line line src = some ev) :
    (∀ ts rest0, dmesgMatch (stripList line.data) = some (ts, rest0) →
      ev.severity ∈ severity_names) ∧
    (∀ level subOpt msg, dmesgMatch (stripList line.data) = none →
      kernelPrefixMatch (stripList line.data) = some (level, subOpt, msg) →
      (level ≤ 7 → ev.severity ∈ severity_names) ∧
      (8 ≤ level → ev.severity = "UNKNOWN")) := by
  constructor
  · intro ts rest0 hm
    rw [parse_eq_timestamped line src ts rest0 hm] at h
    cases h
    exact build_severity_mem _ _ _ _
  · intro level subOpt msg hm hk
    obtain ⟨hne, hte⟩ := parse_some_ne_nil line src ev h
    rw [parse_eq_fallback line src hm hne hte] at h
    unfold parse_kernel_prefix_fallback at h
    rw [hk] at h
    cases h
    constructor
    · intro h7
      obtain ⟨s, hs, hmem⟩ := severity_levels_some_of_le level h7
      dsimp only
      rw [hs]
      simp only [Option.getD_some]
      rw [normalize_id_of_mem _ hmem]
      exact hmem
    · intro h8
      dsimp only
      rw [severity_levels_none level h8]
      decide

/-- Counterexample for C1 as stated: the no-timestamp line `<8>foo: bar`
parses with severity `"UNKNOWN"`, which is outside the 8-value enumeration. -/
theorem c1_counterexample :
    (parse_dmesg_line "<8>foo: bar" "dmesg").map KernelEvent.severity
        = some "UNKNOWN" ∧
    "UNKNOWN" ∉ severity_names := by
  exact ⟨rfl, by decide⟩

/-- Witness for C1's amended statement on a timestamped line. -/
theorem c1_witness :
    (parse_dmesg_line "[1.0] usb: hello" "dmesg").map
        (fun e => decide (e.severity ∈ severity_names)) = some true := by
  cases hp : parse_dmesg_line "[1.0] usb: hello" "dmesg" with
  | none => exact absurd hp (by decide)
  | some ev =>
    have hmem := (c1_severity "[1.0] usb: hello" "dmesg" ev hp).1
      "1.0".data "usb: hello".data (by rfl)
    simp [hmem]

/-- C10: every event produced by the no-timestamp kernel-prefix fallback
(taken exactly when `DMESG_PATTERN` fails on the stripped line) has no
monotonic timestamp, no pid, no cpu, and an empty annotations map — in
particular it is never continuation-flagged, whatever its message. -/
theorem c10_fallback_fields (line src : String) (ev : KernelEvent)
    (h : parse_dmesg_line line src = some ev)
    (hm : dmesgMatch (stripList line.data) = none) :
    ev.timestampMonotonic = none ∧ ev.pid = none ∧ ev.cpu = none ∧
    ev.annotations = [] ∧ isContEvent ev = false := by
  obtain ⟨hne, hte⟩ := parse_some_ne_nil line src ev h
  rw [parse_eq_fallback line src hm hne hte] at h
  unfold parse_kernel_prefix_fallback at h
  revert h
  cases kernelPrefixMatch (stripList line.data) with
  | none =>
    intro h
    cases h
  | some pr =>
    intro h
    obtain ⟨level, subOpt, msg⟩ := pr
    cases h
    refine ⟨rfl, rfl, rfl, rfl, ?_⟩
    simp [isContEvent]

/-- Witness for C10 on a hex-dump-looking prefix line. -/
theorem c10_witness :
    (parse_dmesg_line "<1>\tCode: 0f 0b 90 90" "dmesg").map
        (fun ev => (ev.timestampMonotonic, ev.pid, ev.cpu, ev.annotations))
      = some (none, none, none, []) := by
  cases hp : parse_dmesg_line "<1>\tCode: 0f 0b 90 90" "dmesg" with
  | none => exact absurd hp (by decide)
  | some ev =>
    obtain ⟨h1, h2, h3, h4, _⟩ :=
      c10_fallback_fields "<1>\tCode: 0f 0b 90 90" "dmesg" ev hp (by decide)
    simp [h1, h2, h3, h4]

/-- C7 (amended): `raw` is byte-identical to the line handed to the parser
whenever the line is already stripped (as every live-stream line is), and
on the timestamped path for any newline-free line (as every snapshot line
is); on the no-timestamp kernel-prefix path `raw` is the *stripped* line,
which differs from a snapshot line carrying surrounding whitespace. -/
theorem c7_raw_identity (line src : String) (ev : KernelEvent)
    (h : parse_dmesg_line line src = some ev) :
    (stripList line.data = line.data → ev.raw = line) ∧
    (∀ ts rest0, dmesgMatch (stripList line.data) = some (ts, rest0) →
      '\n' ∉ line.data → ev.raw = line) ∧
    (dmesgMatch (stripList line.data) = none →
      ev.raw = String.mk (stripList line.data)) := by
  refine ⟨?_, ?_, ?_⟩
  · intro hfix
    cases hm : dmesgMatch (stripList line.data) with
    | some pr =>
      obtain ⟨ts, rest0⟩ := pr
      rw [parse_eq_timestamped line src ts rest0 hm] at h
      cases h
      show String.mk (rstripNl line.data) = line
      rw [rstripNl_of_fix _ hfix]
    | none =>
      obtain ⟨hne, hte⟩ := parse_some_ne_nil line src ev h
      rw [parse_eq_fallback line src hm hne hte] at h
      unfold parse_kernel_prefix_fallback at h
      revert h
      cases kernelPrefixMatch (stripList line.data) with
      | none =>
        intro h
        cases h
      | some pr =>
        intro h
        obtain ⟨level, subOpt, msg⟩ := pr
        cases h
        show String.mk (stripList line.data) = line
        rw [hfix]
  · intro ts rest0 hm hnl
    rw [parse_eq_timestamped line src ts rest0 hm] at h
    cases h
    show String.mk (rstripNl line.data) = line
    unfold rstripNl dropTrailing
    have hdw : line.data.reverse.dropWhile (fun c => c = '\n') = line.data.reverse := by
      cases hrev : line.data.reverse with
      | nil => rfl
      | cons d r =>
        have hd : d ∈ line.data := by
          have : d ∈ line.data.reverse := by
            rw [hrev]
            simp
          simpa using this
        have hdn : (d = '\n') = False := by
          simp only [eq_iff_iff, iff_false]
          intro hdd
          subst hdd
          exact hnl hd
        rw [List.dropWhile_cons]
        simp only [hdn, decide_False, Bool.false_eq_true, if_false]
    rw [hdw, List.reverse_reverse]
  · intro hm
    obtain ⟨hne, hte⟩ := parse_some_ne_nil line src ev h
    rw [parse_eq_fallback line src hm hne hte] at h
    unfold parse_kernel_prefix_fallback at h
    revert h
    cases kernelPrefixMatch (stripList line.data) with
    | none =>
      intro h
      cases h
    | some pr =>
      intro h
      obtain ⟨level, subOpt, msg⟩ := pr
      cases h
      rfl

/-- Counterexample for C7 as stated: the dmesg snapshot hands the parser
the line `" <6>usb: hi"` (second line of the shown output) and the
resulting event's `raw` is the stripped `"<6>usb: hi"`, not the source
line. -/
theorem c7_counterexample :
    snapshotLines "a\n <6>usb: hi" = ["a", " <6>usb: hi"] ∧
    (parse_dmesg_line " <6>usb: hi" "dmesg").map KernelEvent.raw
        = some "<6>usb: hi" ∧
    "<6>usb: hi" ≠ " <6>usb: hi" := by
  refine ⟨rfl, rfl, by decide⟩

/-- Witness for C7's amended statement on a stripped (stream-style) line. -/
theorem c7_witness :
    (parse_dmesg_line "[1.0] usb: hi" "dmesg").map KernelEvent.raw
      = some "[1.0] usb: hi" := by
  cases hp : parse_dmesg_line "[1.0] usb: hi" "dmesg" with
  | none => exact absurd hp (by decide)
  | some ev =>
    have hr := (c7_raw_identity "[1.0] usb: hi" "dmesg" ev hp).1 (by decide)
    simp [hr]

theorem str_data_append (a b : String) : (a ++ b).data = a.data ++ b.data := by
  cases a
  cases b
  rfl

theorem head?_mem {α : Type} (l : List α) (c : α) (h : l.head? = some c) : c ∈ l := by
  cases l with
  | nil => cases h
  | cons a t =>
    cases h
    simp

theorem getLast?_mem (l : List Char) (c : Char) (h : l.getLast? = some c) : c ∈ l := by
  rw [List.getLast?_eq_head?_reverse] at h
  have := head?_mem _ _ h
  simpa using this

theorem getLast?_append_right (l1 l2 : List Char) (h : l2 ≠ []) :
    (l1 ++ l2).getLast? = l2.getLast? := by
  rw [List.getLast?_append]
  cases hl : l2.getLast? with
  | none => exact absurd (List.getLast?_eq_none_iff.mp hl) h
  | some d => rfl

theorem head?_append_left (l1 l2 : List Char) (h : l1 ≠ []) :
    (l1 ++ l2).head? = l1.head? := by
  cases l1 with
  | nil => exact absurd rfl h
  | cons a t => rfl

theorem dropWhile_eq_self_of_head (p : Char → Bool) (l : List Char)
    (h : ∀ c, l.head? = some c → p c = false) : l.dropWhile p = l := by
  cases l with
  | nil => rfl
  | cons a t => rw [List.dropWhile_cons, if_neg (by simp [h a rfl])]

theorem takeWhile_eq_nil_of_head (p : Char → Bool) (l : List Char)
    (h : ∀ c, l.head? = some c → p c = false) : l.takeWhile p = [] := by
  cases l with
  | nil => rfl
  | cons a t => rw [List.takeWhile_cons, if_neg (by simp [h a rfl])]

theorem procChar_spec (c : Char) (h : procChar c = true) :
    c ≠ '[' ∧ c ≠ ']' ∧ c ≠ ':' := by
  simp only [procChar, decide_eq_true_eq] at h
  exact ⟨fun h1 => h (Or.inl h1), fun h1 => h (Or.inr (Or.inl h1)),
    fun h1 => h (Or.inr (Or.inr h1))⟩

theorem prioMatch_cons_ne (c : Char) (lc : List Char) (hc : c ≠ '<') :
    prioMatch (c :: lc) = none := by
  simp only [prioMatch]
  rw [if_neg hc]

/-- `DMESG_PATTERN` on a well-formed timestamped line: bracketed
digits-and-dots, one space, then a rest whose head is not whitespace. -/
theorem dmesgMatch_structured (A Z : List Char) (hA : A ≠ [])
    (hAts : ∀ c ∈ A, tsChar c = true)
    (hZhead : ∀ c, Z.head? = some c → pyWs c = false) :
    dmesgMatch ('[' :: (A ++ (']' :: ' ' :: Z))) = some (A, Z) := by
  simp only [dmesgMatch]
  rw [if_pos trivial]
  have hdw : (A ++ (']' :: ' ' :: Z)).dropWhile pyWs = A ++ (']' :: ' ' :: Z) := by
    apply dropWhile_eq_self_of_head
    rw [head?_append_left _ _ hA]
    intro c hc
    exact tsChar_not_ws c (hAts c (head?_mem _ _ hc))
  have htw : (A ++ (']' :: ' ' :: Z)).takeWhile tsChar = A := by
    rw [takeWhile_append_all _ _ _ hAts, List.takeWhile_cons_of_neg (by decide),
      List.append_nil]
  rw [hdw, htw, if_neg hA, List.drop_left]
  split
  · rename_i c1 r2 heq
    injection heq with h1 h2
    subst h1
    subst h2
    rw [if_pos rfl]
    have htw2 : (' ' :: Z).takeWhile pyWs = [' '] := by
      rw [List.takeWhile_cons_of_pos (by decide), takeWhile_eq_nil_of_head _ _ hZhead]
    rw [htw2, if_neg (by simp)]
    simp only [List.length_cons, List.length_nil, Nat.zero_add,
      List.drop_succ_cons, List.drop_zero]
  · rename_i heq
    simp at heq

/-- `PROCESS_PATTERN` fails on `S ++ ':' :: rest` when the subsystem part
contains no `[`, `]` or `:` — the scan stops at the colon, where `[` is
required. -/
theorem processMatch_structured (S rest : List Char) (hS1 : S ≠ [])
    (hS3 : ∀ c ∈ S, procChar c = true) :
    processMatch (S ++ (':' :: rest)) = none := by
  have htw : (S ++ (':' :: rest)).takeWhile procChar = S := by
    rw [takeWhile_append_all _ _ _ hS3, List.takeWhile_cons_of_neg (by decide),
      List.append_nil]
  simp only [processMatch]
  rw [htw, if_neg hS1, List.drop_left]
  split
  · rename_i c0 r1 heq
    injection heq with h1 h2
    subst h1
    rw [if_neg (by decide)]
  · rfl

/-- The bounded-colon-search branch of `subsystemStep` on
`S ++ ': ' ++ M` with a clean subsystem `S` and a pre-stripped message. -/
theorem subsystemStep_colon (S M : List Char) (hS1 : S ≠ [])
    (hS2 : ∀ c ∈ S, pyWs c = false)
    (hS3 : ∀ c ∈ S, procChar c = true)
    (hS6 : S.length < 30)
    (hMfix : stripList M = M) :
    subsystemStep (S ++ (':' :: ' ' :: M)) = (some S, none, M) := by
  have hproc : processMatch (S ++ (':' :: ' ' :: M)) = none :=
    processMatch_structured S (' ' :: M) hS1 hS3
  have hpre : (S ++ (':' :: ' ' :: M)).takeWhile (fun c => c ≠ ':') = S := by
    rw [takeWhile_append_all _ _ _
        (fun c hc => by simpa using (procChar_spec c (hS3 c hc)).2.2),
      List.takeWhile_cons_of_neg (by simp), List.append_nil]
  have hcond : S.length < (S ++ (':' :: ' ' :: M)).length ∧ 0 < S.length ∧
      S.length < 50 := by
    refine ⟨?_, List.length_pos.mpr hS1, by omega⟩
    simp only [List.length_append, List.length_cons]
    omega
  simp only [subsystemStep, hproc]
  rw [hpre]
  rw [if_pos hcond]
  have hpot : stripList S = S :=
    stripList_eq_self S (fun c hc => hS2 c (head?_mem _ _ hc))
      (fun c hc => hS2 c (getLast?_mem _ _ hc))
  rw [hpot]
  have hcon : ¬(S.contains ' ' = true) := by
    intro hc
    have hmem : ' ' ∈ S := List.elem_iff.mp hc
    have := hS2 ' ' hmem
    simp [pyWs] at this
  rw [if_pos ⟨hS6, hcon, hS1⟩]
  have hdrop : (S ++ (':' :: ' ' :: M)).drop (S.length + 1) = ' ' :: M := by
    rw [List.drop_append_eq_append_drop, List.drop_eq_nil_of_le (by omega)]
    have h1 : S.length + 1 - S.length = 1 := by omega
    rw [h1, List.nil_append]
    rw [show (1 : ℕ) = 0 + 1 from rfl, List.drop_succ_cons, List.drop_zero]
  rw [hdrop]
  have hstr : stripList (' ' :: M) = M := by
    unfold stripList
    rw [List.dropWhile_cons, if_pos (by decide), (stripList_parts _ hMfix).1]
    have h2 := hMfix
    unfold stripList at h2
    rw [(stripList_parts _ hMfix).1] at h2
    exact h2
  rw [hstr]

theorem parse_timestamp_valid (A : List Char) (hA : A ≠ [])
    (h2 : ∀ c ∈ A, tsChar c = true) (h3 : A.count '.' ≤ 1)
    (h4 : A.any Char.isDigit = true) :
    parse_timestamp A = some (decimalToRat A) := by
  unfold parse_timestamp
  rw [if_neg hA]
  have hfix : stripList A = A :=
    stripList_eq_self A (fun c hc => tsChar_not_ws c (h2 c (head?_mem _ _ hc)))
      (fun c hc => tsChar_not_ws c (h2 c (getLast?_mem _ _ hc)))
  rw [hfix]
  unfold pyFloatDigitsDots
  rw [if_pos (decide_eq_true ⟨List.all_eq_true.mpr h2, h3, h4⟩)]

/-- C5 (amended): for a line `[t] sub: msg` where `t` is a decimal number,
`sub` is nonempty, shorter than 30 characters, free of whitespace and of
`[`/`]`/`:`, and does not begin with `<` (which would engage the inline
priority prefix), and `msg` is nonempty and already whitespace-trimmed, the
parser produces an event with `timestamp_monotonic` equal to the decimal
value of `t`, `subsystem` equal to `sub` and `message` equal to `msg`. -/
theorem c5_subsystem_extraction (t s m src : String)
    (ht1 : t.data ≠ [])
    (ht2 : ∀ c ∈ t.data, tsChar c = true)
    (ht3 : t.data.count '.' ≤ 1)
    (ht4 : t.data.any Char.isDigit = true)
    (hs1 : s.data ≠ [])
    (hs2 : ∀ c ∈ s.data, pyWs c = false)
    (hs3 : ∀ c ∈ s.data, procChar c = true)
    (hs5 : s.data.head? ≠ some '<')
    (hs6 : s.data.length < 30)
    (hm0 : m.data ≠ [])
    (hm1 : stripList m.data = m.data) :
    (parse_dmesg_line ("[" ++ t ++ "] " ++ s ++ ": " ++ m) src).map
        (fun e => (e.timestampMonotonic, e.subsystem, e.message))
      = some (some (decimalToRat t.data), s, m) := by
  have hld : ("[" ++ t ++ "] " ++ s ++ ": " ++ m).data
      = '[' :: (t.data ++ (']' :: ' ' :: (s.data ++ (':' :: ' ' :: m.data)))) := by
    simp only [str_data_append]
    simp only [List.append_assoc, List.cons_append, List.nil_append,
      List.singleton_append]
  have hZhead : ∀ c, (s.data ++ (':' :: ' ' :: m.data)).head? = some c →
      pyWs c = false := by
    intro c hc
    rw [head?_append_left _ _ hs1] at hc
    exact hs2 c (head?_mem _ _ hc)
  have hMborder := strip_fix_border m.data hm1
  have hgl : ('[' :: (t.data ++ (']' :: ' ' :: (s.data ++ (':' :: ' ' :: m.data))))).getLast?
      = m.data.getLast? := by
    rw [show ('[' :: (t.data ++ (']' :: ' ' :: (s.data ++ (':' :: ' ' :: m.data)))))
        = ['['] ++ (t.data ++ ([']', ' '] ++ (s.data ++ ([':', ' '] ++ m.data))))
      from rfl]
    rw [getLast?_append_right _ _ (by simp), getLast?_append_right _ _ (by simp),
      getLast?_append_right _ _ (by simp), getLast?_append_right _ _ (by simp [hm0]),
      getLast?_append_right _ _ hm0]
  have hfix : stripList (("[" ++ t ++ "] " ++ s ++ ": " ++ m).data)
      = ("[" ++ t ++ "] " ++ s ++ ": " ++ m).data := by
    rw [hld]
    apply stripList_eq_self
    · intro c hc
      cases hc
      decide
    · intro c hc
      rw [hgl] at hc
      exact hMborder.2 c hc
  have hdm2 : dmesgMatch (stripList (("[" ++ t ++ "] " ++ s ++ ": " ++ m).data))
      = some (t.data, s.data ++ (':' :: ' ' :: m.data)) := by
    rw [hfix, hld]
    exact dmesgMatch_structured t.data _ ht1 ht2 hZhead
  rw [parse_eq_timestamped _ src _ _ hdm2]
  simp only [Option.map_some']
  have hZfix : stripList (s.data ++ (':' :: ' ' :: m.data))
      = s.data ++ (':' :: ' ' :: m.data) := by
    apply stripList_eq_self
    · exact hZhead
    · intro c hc
      rw [show s.data ++ (':' :: ' ' :: m.data)
          = s.data ++ ([':', ' '] ++ m.data) from rfl] at hc
      rw [getLast?_append_right _ _ (by simp [hm0]),
        getLast?_append_right _ _ hm0] at hc
      exact hMborder.2 c hc
  have hprio : prioMatch (s.data ++ (':' :: ' ' :: m.data)) = none := by
    cases hS : s.data with
    | nil => exact absurd hS hs1
    | cons s0 S' =>
      rw [List.cons_append]
      apply prioMatch_cons_ne
      intro hlt
      apply hs5
      rw [hS, hlt]
      rfl
  have hsub : subsystemStep (s.data ++ (':' :: ' ' :: m.data))
      = (some s.data, none, m.data) :=
    subsystemStep_colon s.data m.data hs1 hs2 hs3 hs6 hm1
  have hts : parse_timestamp t.data = some (decimalToRat t.data) :=
    parse_timestamp_valid t.data ht1 ht2 ht3 ht4
  simp only [buildTimestamped]
  rw [hZfix]
  have hps : prioStep (s.data ++ (':' :: ' ' :: m.data))
      = (none, s.data ++ (':' :: ' ' :: m.data)) := by
    simp only [prioStep, hprio]
  rw [hps]
  simp only []
  rw [hsub]
  simp only []
  rw [hts, if_neg hs1]

/-- Counterexample for C5 as stated: for the line `[1.0] zsh[42]: hello`
the text before the colon is `zsh[42]` (no spaces, length 7 < 30), but the
parser takes the `name[pid]:` branch first and yields subsystem `"zsh"`
with pid 42. -/
theorem c5_counterexample :
    (parse_dmesg_line "[1.0] zsh[42]: hello" "dmesg").map
        (fun e => (e.subsystem, e.pid, e.message))
      = some ("zsh", some 42, "hello") ∧
    "zsh" ≠ "zsh[42]" := by
  exact ⟨rfl, by decide⟩

/-- Witness for C5's amended statement at a concrete line. -/
theorem c5_witness :
    (parse_dmesg_line ("[" ++ "123.456" ++ "] " ++ "usb" ++ ": " ++ "hi") "dmesg").map
        (fun e => (e.timestampMonotonic, e.subsystem, e.message))
      = some (some (decimalToRat "123.456".data), "usb", "hi") :=
  c5_subsystem_extraction "123.456" "usb" "hi" "dmesg" (by decide) (by decide)
    (by decide) (by decide) (by decide) (by decide) (by decide) (by decide)
    (by decide) (by decide) (by decide)

end RingBuffer
